import Mathlib

/-!
Verification of the minitable windowed synchronization engine.

The client core (sparse row store, page fetch coordinator, optimistic
mutation applier, realtime reconciliation) is embedded from the App
component; the read and write endpoints are embedded from the BFF
server. JS Map and Set values are modelled as association lists and
lists of keys with overwrite semantics.
-/

namespace Minitable

/-- Association list holding JS Map contents: akRemove drops every
binding of a key, mirroring Map.delete. -/
def akRemove {κ β : Type} [DecidableEq κ] : List (κ × β) → κ → List (κ × β)
  | [], _ => []
  | kv :: rest, k => if kv.1 = k then akRemove rest k else kv :: akRemove rest k

/-- Map.set: bind the key, replacing any previous binding. -/
def akSet {κ β : Type} [DecidableEq κ] (m : List (κ × β)) (k : κ) (v : β) : List (κ × β) :=
  (k, v) :: akRemove m k

/-- Map.get: the value bound to a key, if any. -/
def akFind {κ β : Type} [DecidableEq κ] : List (κ × β) → κ → Option β
  | [], _ => none
  | kv :: rest, k => if kv.1 = k then some kv.2 else akFind rest k

theorem akFind_akRemove_self {κ β : Type} [DecidableEq κ] (m : List (κ × β)) (k : κ) :
    akFind (akRemove m k) k = none := by
  induction m with
  | nil => rfl
  | cons kv rest ih =>
      by_cases h : kv.1 = k
      · simp [akRemove, h, ih]
      · simp [akRemove, akFind, h, ih]

theorem akFind_akRemove_ne {κ β : Type} [DecidableEq κ] (m : List (κ × β)) (k k' : κ)
    (h : k' ≠ k) : akFind (akRemove m k) k' = akFind m k' := by
  induction m with
  | nil => rfl
  | cons kv rest ih =>
      simp only [akRemove]
      by_cases hk : kv.1 = k
      · rw [if_pos hk, ih]
        have hne : kv.1 ≠ k' := fun hc => h (hc ▸ hk)
        simp only [akFind, if_neg hne]
      · rw [if_neg hk]
        by_cases hk' : kv.1 = k'
        · simp only [akFind, if_pos hk']
        · simp only [akFind, if_neg hk', ih]

theorem akFind_akSet_self {κ β : Type} [DecidableEq κ] (m : List (κ × β)) (k : κ) (v : β) :
    akFind (akSet m k v) k = some v := by
  simp [akSet, akFind]

theorem akFind_akSet_ne {κ β : Type} [DecidableEq κ] (m : List (κ × β)) (k k' : κ) (v : β)
    (h : k' ≠ k) : akFind (akSet m k v) k' = akFind m k' := by
  simp only [akSet, akFind]
  rw [if_neg (by simpa using fun hc => h hc.symm)]
  exact akFind_akRemove_ne m k k' h

theorem akRemove_akRemove_self {κ β : Type} [DecidableEq κ] (m : List (κ × β)) (k : κ) :
    akRemove (akRemove m k) k = akRemove m k := by
  induction m with
  | nil => rfl
  | cons kv rest ih =>
      by_cases h : kv.1 = k
      · simp [akRemove, h, ih]
      · simp [akRemove, h, ih]

theorem akSet_akSet_self {κ β : Type} [DecidableEq κ] (m : List (κ × β)) (k : κ) (v w : β) :
    akSet (akSet m k v) k w = akSet m k w := by
  simp [akSet, akRemove, akRemove_akRemove_self]

/-- Set.add on a list of page indices: no duplicate is introduced. -/
def insertSet (l : List Nat) (a : Nat) : List Nat :=
  if a ∈ l then l else a :: l

/-- Set.delete on a list of page indices: every occurrence goes. -/
def removeAll : List Nat → Nat → List Nat
  | [], _ => []
  | b :: rest, a => if b = a then removeAll rest a else b :: removeAll rest a

/-- Remove one occurrence of a value (used for the multiset of
outstanding network requests). -/
def eraseOne : List Nat → Nat → List Nat
  | [], _ => []
  | b :: rest, a => if b = a then rest else b :: eraseOne rest a

/-- Number of occurrences of a value in a list. -/
def countNat : List Nat → Nat → Nat
  | [], _ => 0
  | b :: rest, a => (if b = a then 1 else 0) + countNat rest a

theorem countNat_append (l₁ l₂ : List Nat) (a : Nat) :
    countNat (l₁ ++ l₂) a = countNat l₁ a + countNat l₂ a := by
  induction l₁ with
  | nil => simp [countNat]
  | cons b rest ih => simp [countNat, ih]; omega

theorem countNat_pos_iff_mem (l : List Nat) (a : Nat) : 0 < countNat l a ↔ a ∈ l := by
  induction l with
  | nil => simp [countNat]
  | cons b rest ih =>
      by_cases h : b = a
      · simp [countNat, h]
      · simp [countNat, h, ih, Ne.symm h]

theorem countNat_eq_zero_of_not_mem {l : List Nat} {a : Nat} (h : a ∉ l) :
    countNat l a = 0 := by
  have := (countNat_pos_iff_mem l a).not.mpr h
  omega

theorem countNat_eraseOne_self (l : List Nat) (a : Nat) :
    countNat (eraseOne l a) a = countNat l a - 1 := by
  induction l with
  | nil => rfl
  | cons b rest ih =>
      by_cases h : b = a
      · simp [eraseOne, countNat, h]
      · simp [eraseOne, countNat, h, ih]

theorem countNat_eraseOne_ne (l : List Nat) (a b : Nat) (h : b ≠ a) :
    countNat (eraseOne l a) b = countNat l b := by
  induction l with
  | nil => rfl
  | cons c rest ih =>
      by_cases hc : c = a
      · simp [eraseOne, countNat, hc, Ne.symm h]
      · simp [eraseOne, countNat, hc, ih]

theorem mem_removeAll_iff (l : List Nat) (a b : Nat) :
    b ∈ removeAll l a ↔ b ∈ l ∧ b ≠ a := by
  induction l with
  | nil => simp [removeAll]
  | cons c rest ih =>
      simp only [removeAll]
      by_cases hc : c = a
      · rw [if_pos hc, ih]
        subst hc
        simp only [List.mem_cons]
        constructor
        · rintro ⟨hb, hba⟩
          exact ⟨Or.inr hb, hba⟩
        · rintro ⟨hb | hb, hba⟩
          · exact absurd hb hba
          · exact ⟨hb, hba⟩
      · rw [if_neg hc]
        simp only [List.mem_cons, ih]
        constructor
        · rintro (rfl | ⟨hb, hba⟩)
          · exact ⟨Or.inl rfl, hc⟩
          · exact ⟨Or.inr hb, hba⟩
        · rintro ⟨rfl | hb, hba⟩
          · exact Or.inl rfl
          · exact Or.inr ⟨hb, hba⟩

theorem not_mem_removeAll_self (l : List Nat) (a : Nat) : a ∉ removeAll l a := by
  intro h
  exact ((mem_removeAll_iff l a a).mp h).2 rfl

theorem mem_insertSet_iff (l : List Nat) (a b : Nat) :
    b ∈ insertSet l a ↔ b = a ∨ b ∈ l := by
  by_cases h : a ∈ l
  · simp only [insertSet, if_pos h]
    constructor
    · exact Or.inr
    · rintro (rfl | hb)
      · exact h
      · exact hb
  · simp [insertSet, if_neg h]

/-- A row: a stable server-assigned identity plus a mapping of field
name to free-form text value (type Row in the App component). -/
structure Row where
  id : Nat
  fields : List (String × String)
deriving DecidableEq

/-- PAGE_SIZE constant of the App component. -/
def PAGE_SIZE : Nat := 150

/-- DEMO_ERRORS: client-side injected errors keyed by row id. -/
def demoErrors : List (Nat × String) :=
  [(2, "Missing brief & deadline"), (4, "No assigned owner"), (6, "Status not set — blocked")]

/-- In fetchPage, a fetched row whose id appears in DEMO_ERRORS gets a
marcus_error field before being stored. -/
def decorateRow (r : Row) : Row :=
  match akFind demoErrors r.id with
  | some msg => { r with fields := akSet r.fields "marcus_error" msg }
  | none => r

theorem decorateRow_id (r : Row) : (decorateRow r).id = r.id := by
  unfold decorateRow
  cases akFind demoErrors r.id <;> rfl

/-- Session state of one viewer: the refs and state hooks of the App
component, plus the multiset of outstanding HTTP page requests and the
history of issued page requests (environment bookkeeping used to state
the fetch ledger claims). -/
structure ClientState where
  rowsMap : List (Nat × Row)
  idToIdx : List (Nat × Nat)
  fetchedPages : List Nat
  fetchingPages : List Nat
  outstanding : List Nat
  issuedLog : List Nat
  total : Nat
  loadedCount : Nat
  editingCell : Option (Nat × String)
  editingDropdown : Option (Nat × String)
deriving DecidableEq

/-- State at mount: empty store, empty ledger, total 0. -/
def initState : ClientState :=
  { rowsMap := [], idToIdx := [], fetchedPages := [], fetchingPages := [],
    outstanding := [], issuedLog := [], total := 0, loadedCount := 0,
    editingCell := none, editingDropdown := none }

/-- The success loop of fetchPage: for each returned row at batch index
i, store it at position offset + i and map its id to that position. -/
def applyRows : Nat → List Row → ClientState → ClientState
  | _, [], s => s
  | offset, r :: rest, s =>
      applyRows (offset + 1) rest
        { s with rowsMap := akSet s.rowsMap offset (decorateRow r),
                 idToIdx := akSet s.idToIdx (decorateRow r).id offset }

/-- The synchronous first part of fetchPage(page): skip if the page is
fetched or in flight, otherwise mark it in flight and issue the read
request limit=PAGE_SIZE, offset=page*PAGE_SIZE. -/
def fetchPageCall (s : ClientState) (page : Nat) : ClientState :=
  if page ∈ s.fetchedPages then s
  else if page ∈ s.fetchingPages then s
  else { s with fetchingPages := page :: s.fetchingPages,
                outstanding := page :: s.outstanding,
                issuedLog := s.issuedLog ++ [page] }

/-- Completion of a successful page fetch: write the rows, move the
page from in-flight to fetched, refresh total and loadedCount. A
completion can only consume an outstanding request. -/
def fetchOkApply (s : ClientState) (page : Nat) (rows : List Row) (tot : Nat) : ClientState :=
  if page ∈ s.outstanding then
    let s1 := applyRows (page * PAGE_SIZE) rows s
    { s1 with fetchedPages := insertSet s1.fetchedPages page,
              fetchingPages := removeAll s1.fetchingPages page,
              outstanding := eraseOne s1.outstanding page,
              total := tot,
              loadedCount := s1.rowsMap.length }
  else s

/-- Completion of a failed page fetch: the catch branch of fetchPage
only deletes the page from the in-flight set. -/
def fetchErrApply (s : ClientState) (page : Nat) : ClientState :=
  if page ∈ s.outstanding then
    { s with fetchingPages := removeAll s.fetchingPages page,
             outstanding := eraseOne s.outstanding page }
  else s

/-- The socket cell-updated handler: look up the position of the
incoming row by identity; if mapped, replace the stored row at that
position with the incoming full row; otherwise do nothing. -/
def cellUpdatedApply (s : ClientState) (row : Row) : ClientState :=
  match akFind s.idToIdx row.id with
  | some idx => { s with rowsMap := akSet s.rowsMap idx row }
  | none => s

/-- Patch one field of a row, as the object spread in updateCell does. -/
def patchField (r : Row) (field value : String) : Row :=
  { r with fields := akSet r.fields field value }

/-- The synchronous part of updateCell: optimistic apply of the draft
value (if the identity is mapped and the position is filled) and
closing of the edit UI; the PATCH request is dispatched afterwards. -/
def updateCellLocal (s : ClientState) (rowId : Nat) (field value : String) : ClientState :=
  match akFind s.idToIdx rowId with
  | some idx =>
      match akFind s.rowsMap idx with
      | some cur =>
          { s with rowsMap := akSet s.rowsMap idx (patchField cur field value),
                   editingCell := none, editingDropdown := none }
      | none => { s with editingCell := none, editingDropdown := none }
  | none => { s with editingCell := none, editingDropdown := none }

/-- Observable events of one viewer session, serialized on the event
loop: fetchPage invocations, fetch completions, realtime messages and
committed cell edits. -/
inductive Event : Type
  | call (page : Nat)
  | fetchOk (page : Nat) (rows : List Row) (tot : Nat)
  | fetchErr (page : Nat)
  | cellUpdated (row : Row)
  | edit (rowId : Nat) (field value : String)
deriving DecidableEq

/-- One serialized event-loop step. -/
def stepE (s : ClientState) : Event → ClientState
  | Event.call page => fetchPageCall s page
  | Event.fetchOk page rows tot => fetchOkApply s page rows tot
  | Event.fetchErr page => fetchErrApply s page
  | Event.cellUpdated row => cellUpdatedApply s row
  | Event.edit rowId field value => updateCellLocal s rowId field value

/-- Run a sequence of events from the mount state. -/
def runE (es : List Event) : ClientState :=
  es.foldl stepE initState

/-- The cell-updated handler of the Table component (frontend/src/
components/Table.tsx): replace every row of the loaded array whose id
matches the incoming row. -/
def tableApplyCellUpdated (data : List Row) (updatedRow : Row) : List Row :=
  data.map (fun row => if row.id = updatedRow.id then updatedRow else row)

/-- Claim C7: applying the same full-row realtime update twice through
the receive handler yields the same store state as applying it once. -/
theorem realtime_update_idempotent (s : ClientState) (row : Row) :
    stepE (stepE s (Event.cellUpdated row)) (Event.cellUpdated row)
      = stepE s (Event.cellUpdated row) := by
  show cellUpdatedApply (cellUpdatedApply s row) row = cellUpdatedApply s row
  unfold cellUpdatedApply
  cases h : akFind s.idToIdx row.id with
  | none => simp [h]
  | some idx => simp [h, akSet_akSet_self]

/-- Claim C3: on a relayed row update, a mapped identity causes the
store entry at the mapped position to be replaced by the incoming full
row, overwriting any optimistic local value; an unmapped identity
leaves the whole session state unchanged. The Table component variant
likewise leaves its row array unchanged when no loaded row has the
incoming identity. -/
theorem realtime_reconciliation_rule (s : ClientState) (row : Row) (data : List Row) :
    (∀ p, akFind s.idToIdx row.id = some p →
        (stepE s (Event.cellUpdated row)).rowsMap = akSet s.rowsMap p row ∧
        akFind (stepE s (Event.cellUpdated row)).rowsMap p = some row) ∧
    (akFind s.idToIdx row.id = none → stepE s (Event.cellUpdated row) = s) ∧
    ((∀ r ∈ data, r.id ≠ row.id) → tableApplyCellUpdated data row = data) := by
  refine ⟨?_, ?_, ?_⟩
  · intro p hp
    show (cellUpdatedApply s row).rowsMap = _ ∧ akFind (cellUpdatedApply s row).rowsMap p = _
    unfold cellUpdatedApply
    rw [hp]
    exact ⟨rfl, akFind_akSet_self _ _ _⟩
  · intro hn
    show cellUpdatedApply s row = s
    unfold cellUpdatedApply
    rw [hn]
  · intro hall
    unfold tableApplyCellUpdated
    induction data with
    | nil => rfl
    | cons r rest ih =>
        have h1 : r.id ≠ row.id := hall r (List.mem_cons_self r rest)
        have h2 : ∀ x ∈ rest, x.id ≠ row.id := fun x hx => hall x (List.mem_cons_of_mem r hx)
        simp only [List.map_cons, if_neg h1, ih h2]

/-- Witness for claim C3 at a concrete one-row session. -/
theorem realtime_reconciliation_rule_witness :
    akFind (stepE (runE [Event.call 0, Event.fetchOk 0 [⟨9, []⟩] 1])
        (Event.cellUpdated ⟨9, [("status", "Done")]⟩)).rowsMap 0
      = some ⟨9, [("status", "Done")]⟩ :=
  ((realtime_reconciliation_rule (runE [Event.call 0, Event.fetchOk 0 [⟨9, []⟩] 1])
      ⟨9, [("status", "Done")]⟩ []).1 0 (by decide)).2

/-- The write request dispatched by updateCell: identity plus a single
field-to-value update. -/
structure PatchReq where
  rowId : Nat
  updates : List (String × String)
deriving DecidableEq

/-- updateCell as a whole: the synchronous optimistic apply happens
first, then the PATCH request is dispatched to the backing store. -/
def updateCellModel (s : ClientState) (rowId : Nat) (field value : String) :
    ClientState × PatchReq :=
  (updateCellLocal s rowId field value, ⟨rowId, [(field, value)]⟩)

/-- The catch branch of updateCell: a failed write performs no further
store mutation (no rollback, no retry). -/
def updateCellOnWriteErr (s : ClientState) : ClientState := s

/-- Claim C4: committing a cell edit for a mapped identity patches the
Row Store entry synchronously, closes the edit UI, dispatches exactly
the write request (identity, field, value), and a failing write leaves
the optimistically patched state untouched. -/
theorem optimistic_write_behaviour (s : ClientState) (rowId : Nat) (field value : String)
    (p : Nat) (cur : Row)
    (hp : akFind s.idToIdx rowId = some p) (hc : akFind s.rowsMap p = some cur) :
    (updateCellModel s rowId field value).1.rowsMap
        = akSet s.rowsMap p (patchField cur field value) ∧
    akFind (updateCellModel s rowId field value).1.rowsMap p
        = some (patchField cur field value) ∧
    (updateCellModel s rowId field value).2 = ⟨rowId, [(field, value)]⟩ ∧
    (updateCellModel s rowId field value).1.editingCell = none ∧
    updateCellOnWriteErr (updateCellModel s rowId field value).1
        = (updateCellModel s rowId field value).1 := by
  unfold updateCellModel updateCellLocal updateCellOnWriteErr
  simp only [hp, hc]
  exact ⟨by trivial, akFind_akSet_self _ _ _, by trivial, by trivial, by trivial⟩

/-- Witness for claim C4 at a concrete one-row session. -/
theorem optimistic_write_behaviour_witness :
    akFind (updateCellModel (runE [Event.call 0, Event.fetchOk 0 [⟨9, []⟩] 1])
        9 "status" "Done").1.rowsMap 0
      = some (patchField ⟨9, []⟩ "status" "Done") :=
  (optimistic_write_behaviour (runE [Event.call 0, Event.fetchOk 0 [⟨9, []⟩] 1])
      9 "status" "Done" 0 ⟨9, []⟩ (by decide) (by decide)).2.1

/-- Claim C6: a failed fetch for page p releases p from in-flight,
leaves the fetched set, the Row Store and the total unchanged, issues
no new request by itself, and a later fetchPage call for p issues a
fresh request. -/
theorem fetch_failure_release (s : ClientState) (p : Nat) (hout : p ∈ s.outstanding) :
    p ∉ (stepE s (Event.fetchErr p)).fetchingPages ∧
    (stepE s (Event.fetchErr p)).fetchedPages = s.fetchedPages ∧
    (stepE s (Event.fetchErr p)).rowsMap = s.rowsMap ∧
    (stepE s (Event.fetchErr p)).idToIdx = s.idToIdx ∧
    (stepE s (Event.fetchErr p)).total = s.total ∧
    (stepE s (Event.fetchErr p)).issuedLog = s.issuedLog ∧
    (p ∉ s.fetchedPages →
      (fetchPageCall (stepE s (Event.fetchErr p)) p).issuedLog = s.issuedLog ++ [p]) := by
  have hstep : stepE s (Event.fetchErr p)
      = { s with fetchingPages := removeAll s.fetchingPages p,
                 outstanding := eraseOne s.outstanding p } := by
    show fetchErrApply s p = _
    unfold fetchErrApply
    rw [if_pos hout]
  rw [hstep]
  refine ⟨not_mem_removeAll_self _ _, rfl, rfl, rfl, rfl, rfl, ?_⟩
  intro hnf
  simp [fetchPageCall, hnf, not_mem_removeAll_self s.fetchingPages p]

/-- Witness for claim C6: after a failed fetch of page 5, calling
fetchPage(5) again issues a second request. -/
theorem fetch_failure_release_witness :
    (fetchPageCall (stepE (runE [Event.call 5]) (Event.fetchErr 5)) 5).issuedLog
      = (runE [Event.call 5]).issuedLog ++ [5] :=
  (fetch_failure_release (runE [Event.call 5]) 5 (by decide)).2.2.2.2.2.2 (by decide)

/-- The rows of one page response carry the identities the backing
store assigns to consecutive positions from the given offset: the read
endpoint returns rows in ascending identity order starting at the
requested offset, and positions are stable in scope (rows are never
deleted or reordered). -/
def RowsMatch (idAt : Nat → Nat) : Nat → List Row → Prop
  | _, [] => True
  | offset, r :: rest => r.id = idAt offset ∧ RowsMatch idAt (offset + 1) rest

instance instDecRowsMatch (idAt : Nat → Nat) :
    (offset : Nat) → (rows : List Row) → Decidable (RowsMatch idAt offset rows)
  | _, [] => isTrue trivial
  | o, r :: rest =>
      have : Decidable (RowsMatch idAt (o + 1) rest) := instDecRowsMatch idAt (o + 1) rest
      decidable_of_iff (r.id = idAt o ∧ RowsMatch idAt (o + 1) rest) (by simp [RowsMatch])

/-- An event is well formed when every successful page response is
consistent with the fixed server assignment of identities. -/
def WfEvent (idAt : Nat → Nat) : Event → Prop
  | Event.fetchOk page rows _ => RowsMatch idAt (page * PAGE_SIZE) rows
  | _ => True

instance instDecWfEvent (idAt : Nat → Nat) : DecidablePred (WfEvent idAt) := fun e =>
  match e with
  | Event.call _ => isTrue trivial
  | Event.fetchOk page rows _ => instDecRowsMatch idAt (page * PAGE_SIZE) rows
  | Event.fetchErr _ => isTrue trivial
  | Event.cellUpdated _ => isTrue trivial
  | Event.edit _ _ _ => isTrue trivial

/-- Joint consistency of the position-to-row map and the reverse map:
every filled position points back to itself through the reverse map,
and the reverse map only ever records the server assignment. -/
def MapsConsistent (idAt : Nat → Nat) (rowsMap : List (Nat × Row))
    (idToIdx : List (Nat × Nat)) : Prop :=
  (∀ p r, akFind rowsMap p = some r → akFind idToIdx r.id = some p) ∧
  (∀ i p, akFind idToIdx i = some p → i = idAt p)

/-- The store consistency invariant of a session state. -/
def StoreInv (idAt : Nat → Nat) (s : ClientState) : Prop :=
  MapsConsistent idAt s.rowsMap s.idToIdx

theorem patchField_id (r : Row) (field value : String) :
    (patchField r field value).id = r.id := rfl

theorem mapsConsistent_update (idAt : Nat → Nat)
    (hinj : ∀ a b, idAt a = idAt b → a = b)
    (m : List (Nat × Row)) (ix : List (Nat × Nat)) (offset : Nat) (d : Row)
    (hs : MapsConsistent idAt m ix) (hd : d.id = idAt offset) :
    MapsConsistent idAt (akSet m offset d) (akSet ix d.id offset) := by
  constructor
  · intro q r2 hq
    by_cases hqo : q = offset
    · subst hqo
      rw [akFind_akSet_self] at hq
      cases hq
      exact akFind_akSet_self _ _ _
    · rw [akFind_akSet_ne _ _ _ _ hqo] at hq
      have h1 := hs.1 q r2 hq
      have h2 := hs.2 r2.id q h1
      have hne : r2.id ≠ d.id := by
        rw [hd, h2]
        intro hc
        exact hqo (hinj q offset hc)
      rw [akFind_akSet_ne _ _ _ _ hne]
      exact h1
  · intro i q hi
    by_cases hio : i = d.id
    · subst hio
      rw [akFind_akSet_self] at hi
      cases hi
      exact hd
    · rw [akFind_akSet_ne _ _ _ _ hio] at hi
      exact hs.2 i q hi

theorem applyRows_storeInv (idAt : Nat → Nat)
    (hinj : ∀ a b, idAt a = idAt b → a = b) :
    ∀ (rows : List Row) (offset : Nat) (s : ClientState),
      StoreInv idAt s → RowsMatch idAt offset rows →
      StoreInv idAt (applyRows offset rows s) := by
  intro rows
  induction rows with
  | nil =>
      intro offset s hs _
      exact hs
  | cons r rest ih =>
      intro offset s hs hm
      have hm2 : r.id = idAt offset ∧ RowsMatch idAt (offset + 1) rest := by
        simpa [RowsMatch] using hm
      show StoreInv idAt (applyRows (offset + 1) rest _)
      apply ih (offset + 1)
      · exact mapsConsistent_update idAt hinj s.rowsMap s.idToIdx offset (decorateRow r) hs
          (by rw [decorateRow_id]; exact hm2.1)
      · exact hm2.2

theorem stepE_storeInv (idAt : Nat → Nat)
    (hinj : ∀ a b, idAt a = idAt b → a = b)
    (s : ClientState) (e : Event)
    (hwf : WfEvent idAt e) (hs : StoreInv idAt s) : StoreInv idAt (stepE s e) := by
  cases e with
  | call page =>
      show StoreInv idAt (fetchPageCall s page)
      unfold fetchPageCall
      split
      · exact hs
      · split
        · exact hs
        · exact hs
  | fetchOk page rows tot =>
      show StoreInv idAt (fetchOkApply s page rows tot)
      unfold fetchOkApply
      split
      · exact applyRows_storeInv idAt hinj rows (page * PAGE_SIZE) s hs hwf
      · exact hs
  | fetchErr page =>
      show StoreInv idAt (fetchErrApply s page)
      unfold fetchErrApply
      split
      · exact hs
      · exact hs
  | cellUpdated row =>
      show StoreInv idAt (cellUpdatedApply s row)
      unfold cellUpdatedApply
      cases h : akFind s.idToIdx row.id with
      | none => exact hs
      | some idx =>
          constructor
          · intro q r2 hq
            by_cases hqi : q = idx
            · subst hqi
              rw [akFind_akSet_self] at hq
              cases hq
              exact h
            · rw [akFind_akSet_ne _ _ _ _ hqi] at hq
              exact hs.1 q r2 hq
          · exact hs.2
  | edit rowId field value =>
      show StoreInv idAt (updateCellLocal s rowId field value)
      unfold updateCellLocal
      cases h1 : akFind s.idToIdx rowId with
      | none => exact hs
      | some idx =>
          cases h2 : akFind s.rowsMap idx with
          | none =>
              simp only [h2]
              exact hs
          | some cur =>
              simp only [h2]
              constructor
              · intro q r2 hq
                by_cases hqi : q = idx
                · subst hqi
                  rw [akFind_akSet_self] at hq
                  cases hq
                  rw [patchField_id]
                  exact hs.1 q cur h2
                · rw [akFind_akSet_ne _ _ _ _ hqi] at hq
                  exact hs.1 q r2 hq
              · exact hs.2

theorem foldl_storeInv (idAt : Nat → Nat)
    (hinj : ∀ a b, idAt a = idAt b → a = b) :
    ∀ (es : List Event) (s : ClientState),
      (∀ e ∈ es, WfEvent idAt e) → StoreInv idAt s →
      StoreInv idAt (es.foldl stepE s) := by
  intro es
  induction es with
  | nil =>
      intro s _ hs
      exact hs
  | cons e rest ih =>
      intro s hwf hs
      exact ih (stepE s e) (fun x hx => hwf x (List.mem_cons_of_mem e hx))
        (stepE_storeInv idAt hinj s e (hwf e (List.mem_cons_self e rest)) hs)

/-- Claim C1: for every position p with a filled Row Store entry,
idToPos maps the id stored at p back to p, after any sequence of
fetchPage calls, page-fetch completions, optimistic cell edits and
realtime row updates applied to the initially empty store, provided
every successful page response carries the identities the backing
store assigns to the fetched positions (a fixed assignment with
distinct identities, as rows are never deleted or reordered). -/
theorem store_consistency_invariant (idAt : Nat → Nat)
    (hinj : ∀ a b, idAt a = idAt b → a = b)
    (es : List Event) (hwf : ∀ e ∈ es, WfEvent idAt e)
    (p : Nat) (r : Row) (hr : akFind (runE es).rowsMap p = some r) :
    akFind (runE es).idToIdx r.id = some p := by
  have hinit : StoreInv idAt initState := by
    constructor
    · intro q r2 hq
      exact absurd hq (by simp [initState, akFind])
    · intro i q hi
      exact absurd hi (by simp [initState, akFind])
  exact (foldl_storeInv idAt hinj es initState hwf hinit).1 p r hr

theorem applyRows_outstanding :
    ∀ (rows : List Row) (offset : Nat) (s : ClientState),
      (applyRows offset rows s).outstanding = s.outstanding := by
  intro rows
  induction rows with
  | nil => intro offset s; rfl
  | cons r rest ih => intro offset s; exact ih (offset + 1) _

theorem applyRows_fetchingPages :
    ∀ (rows : List Row) (offset : Nat) (s : ClientState),
      (applyRows offset rows s).fetchingPages = s.fetchingPages := by
  intro rows
  induction rows with
  | nil => intro offset s; rfl
  | cons r rest ih => intro offset s; exact ih (offset + 1) _

theorem applyRows_fetchedPages :
    ∀ (rows : List Row) (offset : Nat) (s : ClientState),
      (applyRows offset rows s).fetchedPages = s.fetchedPages := by
  intro rows
  induction rows with
  | nil => intro offset s; rfl
  | cons r rest ih => intro offset s; exact ih (offset + 1) _

theorem applyRows_issuedLog :
    ∀ (rows : List Row) (offset : Nat) (s : ClientState),
      (applyRows offset rows s).issuedLog = s.issuedLog := by
  intro rows
  induction rows with
  | nil => intro offset s; rfl
  | cons r rest ih => intro offset s; exact ih (offset + 1) _

/-- Ledger invariant: at most one outstanding request per page, and
the in-flight set records exactly the outstanding requests. -/
def LedgerInv (s : ClientState) : Prop :=
  ∀ p, countNat s.outstanding p ≤ 1 ∧ (p ∈ s.outstanding ↔ p ∈ s.fetchingPages)

theorem stepE_ledgerInv (s : ClientState) (e : Event) (hs : LedgerInv s) :
    LedgerInv (stepE s e) := by
  cases e with
  | call page =>
      show LedgerInv (fetchPageCall s page)
      unfold fetchPageCall
      split
      · exact hs
      · split
        · exact hs
        · intro p
          rename_i hfed hfing
          by_cases hp : p = page
          · subst hp
            have hout : p ∉ s.outstanding := fun hc => hfing ((hs p).2.mp hc)
            constructor
            · simp [countNat, countNat_eq_zero_of_not_mem hout]
            · simp
          · constructor
            · have := (hs p).1
              simp only [countNat]
              rw [if_neg (fun hc => hp hc.symm)]
              omega
            · simp only [List.mem_cons]
              have := (hs p).2
              constructor
              · rintro (hc | hc)
                · exact absurd hc.symm (fun hc2 => hp hc2.symm)
                · exact Or.inr (this.mp hc)
              · rintro (hc | hc)
                · exact absurd hc.symm (fun hc2 => hp hc2.symm)
                · exact Or.inr (this.mpr hc)
  | fetchOk page rows tot =>
      show LedgerInv (fetchOkApply s page rows tot)
      unfold fetchOkApply
      split
      · intro p
        simp only [applyRows_outstanding, applyRows_fetchingPages]
        rename_i hmem
        by_cases hp : p = page
        · subst hp
          have h1 := (hs p).1
          have h2 : countNat (eraseOne s.outstanding p) p = countNat s.outstanding p - 1 :=
            countNat_eraseOne_self _ _
          constructor
          · omega
          · constructor
            · intro hc
              have := (countNat_pos_iff_mem _ _).mpr hc
              omega
            · intro hc
              exact absurd hc (not_mem_removeAll_self _ _)
        · have h2 : countNat (eraseOne s.outstanding page) p = countNat s.outstanding p :=
            countNat_eraseOne_ne _ _ _ hp
          constructor
          · have := (hs p).1
            omega
          · rw [mem_removeAll_iff]
            have hiff := (hs p).2
            constructor
            · intro hc
              have := (countNat_pos_iff_mem (eraseOne s.outstanding page) p).mpr hc
              rw [h2] at this
              exact ⟨hiff.mp ((countNat_pos_iff_mem _ _).mp this), hp⟩
            · rintro ⟨hc, -⟩
              have := (countNat_pos_iff_mem _ _).mpr (hiff.mpr hc)
              rw [← h2] at this
              exact (countNat_pos_iff_mem _ _).mp this
      · exact hs
  | fetchErr page =>
      show LedgerInv (fetchErrApply s page)
      unfold fetchErrApply
      split
      · intro p
        dsimp only
        by_cases hp : p = page
        · subst hp
          have h1 := (hs p).1
          have h2 : countNat (eraseOne s.outstanding p) p = countNat s.outstanding p - 1 :=
            countNat_eraseOne_self _ _
          constructor
          · omega
          · constructor
            · intro hc
              have := (countNat_pos_iff_mem _ _).mpr hc
              omega
            · intro hc
              exact absurd hc (not_mem_removeAll_self _ _)
        · have h2 : countNat (eraseOne s.outstanding page) p = countNat s.outstanding p :=
            countNat_eraseOne_ne _ _ _ hp
          constructor
          · have := (hs p).1
            omega
          · rw [mem_removeAll_iff]
            have hiff := (hs p).2
            constructor
            · intro hc
              have := (countNat_pos_iff_mem (eraseOne s.outstanding page) p).mpr hc
              rw [h2] at this
              exact ⟨hiff.mp ((countNat_pos_iff_mem _ _).mp this), hp⟩
            · rintro ⟨hc, -⟩
              have := (countNat_pos_iff_mem _ _).mpr (hiff.mpr hc)
              rw [← h2] at this
              exact (countNat_pos_iff_mem _ _).mp this
      · exact hs
  | cellUpdated row =>
      show LedgerInv (cellUpdatedApply s row)
      unfold cellUpdatedApply
      cases h : akFind s.idToIdx row.id with
      | none => exact hs
      | some idx => exact hs
  | edit rowId field value =>
      show LedgerInv (updateCellLocal s rowId field value)
      unfold updateCellLocal
      cases h1 : akFind s.idToIdx rowId with
      | none => exact hs
      | some idx =>
          cases h2 : akFind s.rowsMap idx with
          | none =>
              simp only [h2]
              exact hs
          | some cur =>
              simp only [h2]
              exact hs

theorem foldl_ledgerInv :
    ∀ (es : List Event) (s : ClientState), LedgerInv s → LedgerInv (es.foldl stepE s) := by
  intro es
  induction es with
  | nil => intro s hs; exact hs
  | cons e rest ih => intro s hs; exact ih (stepE s e) (stepE_ledgerInv s e hs)

theorem stepE_fetched_mono (s : ClientState) (e : Event) (p : Nat)
    (hp : p ∈ s.fetchedPages) : p ∈ (stepE s e).fetchedPages := by
  cases e with
  | call page =>
      show p ∈ (fetchPageCall s page).fetchedPages
      unfold fetchPageCall
      split
      · exact hp
      · split
        · exact hp
        · exact hp
  | fetchOk page rows tot =>
      show p ∈ (fetchOkApply s page rows tot).fetchedPages
      unfold fetchOkApply
      split
      · rw [mem_insertSet_iff, applyRows_fetchedPages]
        exact Or.inr hp
      · exact hp
  | fetchErr page =>
      show p ∈ (fetchErrApply s page).fetchedPages
      unfold fetchErrApply
      split
      · exact hp
      · exact hp
  | cellUpdated row =>
      show p ∈ (cellUpdatedApply s row).fetchedPages
      unfold cellUpdatedApply
      cases h : akFind s.idToIdx row.id with
      | none => exact hp
      | some idx => exact hp
  | edit rowId field value =>
      show p ∈ (updateCellLocal s rowId field value).fetchedPages
      unfold updateCellLocal
      cases h1 : akFind s.idToIdx rowId with
      | none => exact hp
      | some idx =>
          cases h2 : akFind s.rowsMap idx with
          | none =>
              simp only [h2]
              exact hp
          | some cur =>
              simp only [h2]
              exact hp

theorem stepE_issued_of_fetched (s : ClientState) (e : Event) (p : Nat)
    (hp : p ∈ s.fetchedPages) :
    countNat (stepE s e).issuedLog p = countNat s.issuedLog p := by
  cases e with
  | call page =>
      show countNat (fetchPageCall s page).issuedLog p = _
      unfold fetchPageCall
      split
      · rfl
      · split
        · rfl
        · rename_i hfed hfing
          rw [countNat_append]
          have hne : page ≠ p := fun hc => hfed (hc ▸ hp)
          simp [countNat, hne]
  | fetchOk page rows tot =>
      show countNat (fetchOkApply s page rows tot).issuedLog p = _
      unfold fetchOkApply
      split
      · rw [applyRows_issuedLog]
      · rfl
  | fetchErr page =>
      show countNat (fetchErrApply s page).issuedLog p = _
      unfold fetchErrApply
      split
      · rfl
      · rfl
  | cellUpdated row =>
      show countNat (cellUpdatedApply s row).issuedLog p = _
      unfold cellUpdatedApply
      cases h : akFind s.idToIdx row.id with
      | none => rfl
      | some idx => rfl
  | edit rowId field value =>
      show countNat (updateCellLocal s rowId field value).issuedLog p = _
      unfold updateCellLocal
      cases h1 : akFind s.idToIdx rowId with
      | none => rfl
      | some idx =>
          cases h2 : akFind s.rowsMap idx with
          | none => simp only [h2]
          | some cur => simp only [h2]

theorem foldl_issued_of_fetched :
    ∀ (es : List Event) (s : ClientState) (p : Nat), p ∈ s.fetchedPages →
      countNat ((es.foldl stepE s)).issuedLog p = countNat s.issuedLog p := by
  intro es
  induction es with
  | nil => intro s p _; rfl
  | cons e rest ih =>
      intro s p hp
      rw [List.foldl_cons, ih (stepE s e) p (stepE_fetched_mono s e p hp),
        stepE_issued_of_fetched s e p hp]

/-- Claim C2: in every reachable session state, at most one request is
outstanding per page index; a fetchPage call for an in-flight page is
a no-op (no request issued); and once a page is fetched, no later
event sequence ever issues another request for it. -/
theorem fetch_ledger_invariant (es₁ es₂ : List Event) (p : Nat) :
    countNat (runE es₁).outstanding p ≤ 1 ∧
    (p ∈ (runE es₁).fetchingPages → stepE (runE es₁) (Event.call p) = runE es₁) ∧
    (p ∈ (runE es₁).fetchedPages →
      countNat (runE (es₁ ++ es₂)).issuedLog p = countNat (runE es₁).issuedLog p) := by
  have hinit : LedgerInv initState := by
    intro q
    constructor
    · show countNat [] q ≤ 1
      simp [countNat]
    · show q ∈ ([] : List Nat) ↔ q ∈ ([] : List Nat)
      exact Iff.rfl
  have hledger := foldl_ledgerInv es₁ initState hinit
  refine ⟨(hledger p).1, ?_, ?_⟩
  · intro hfing
    show fetchPageCall (runE es₁) p = runE es₁
    unfold fetchPageCall
    by_cases hfed : p ∈ (runE es₁).fetchedPages
    · rw [if_pos hfed]
    · rw [if_neg hfed, if_pos hfing]
  · intro hfed
    show countNat (runE (es₁ ++ es₂)).issuedLog p = _
    unfold runE
    rw [List.foldl_append]
    exact foldl_issued_of_fetched es₂ (List.foldl stepE initState es₁) p hfed

/-- Witness for claim C2: page 3 is fetched, then requested again; the
request count for page 3 does not grow. -/
theorem fetch_ledger_invariant_witness :
    countNat (runE ([Event.call 3, Event.fetchOk 3 [] 0] ++ [Event.call 3])).issuedLog 3
      = countNat (runE [Event.call 3, Event.fetchOk 3 [] 0]).issuedLog 3 :=
  (fetch_ledger_invariant [Event.call 3, Event.fetchOk 3 [] 0] [Event.call 3] 3).2.2
    (by decide)

/-- Witness for claim C1 on a concrete trace: one call, one page
completion with two rows, one realtime update, one optimistic edit. -/
theorem store_consistency_invariant_witness :
    akFind (runE [Event.call 0,
        Event.fetchOk 0 [⟨101, []⟩, ⟨102, [("status", "Planned")]⟩] 2,
        Event.cellUpdated ⟨101, [("status", "Done")]⟩,
        Event.edit 102 "status" "Ready"]).idToIdx 101 = some 0 :=
  store_consistency_invariant (fun n => n + 101)
    (fun a b h => Nat.add_right_cancel h)
    [Event.call 0,
     Event.fetchOk 0 [⟨101, []⟩, ⟨102, [("status", "Planned")]⟩] 2,
     Event.cellUpdated ⟨101, [("status", "Done")]⟩,
     Event.edit 102 "status" "Ready"]
    (by decide) 0 ⟨101, [("status", "Done")]⟩ (by decide)

/-- The viewport prefetch effect: with fi and li the first and last
virtual row indices and total the row count, compute ceil(total/
PAGE_SIZE)-1 as the last valid page, start at max(0, page(fi)-1) and
end at min(page(li)+2, last), and call fetchPage for every page index
in that range (Nat subtraction matches the Math.max(0, x-1) clamp).
The effect returns early when total is 0 or no rows are virtual. -/
def prefetchRange (fi li total : Nat) : List Nat :=
  if total = 0 then []
  else
    let maxP := (total + PAGE_SIZE - 1) / PAGE_SIZE - 1
    let sp := fi / PAGE_SIZE - 1
    let ep := min (li / PAGE_SIZE + 2) maxP
    List.range' sp (ep + 1 - sp)

/-- The page set in the words of the spec, stated for comparison with
prefetchRange: the pages intersecting [fi, li] (indices page(fi) to
page(li)) widened by one page index on each side, clamped to the valid
page-index range. -/
def specWidenedPages (fi li total : Nat) : List Nat :=
  let maxP := (total + PAGE_SIZE - 1) / PAGE_SIZE - 1
  let lo := fi / PAGE_SIZE - 1
  let hi := min (li / PAGE_SIZE + 1) maxP
  List.range' lo (hi + 1 - lo)

/-- Counterexample to claim C5 as stated: with positions 0 to 29
visible out of 50000 rows, the effect requests page 2, which is not in
the one-page-each-side widening of page 0. -/
theorem prefetch_one_page_widening_cex :
    2 ∈ prefetchRange 0 29 50000 ∧ 2 ∉ specWidenedPages 0 29 50000 := by
  decide

/-- Claim C5 as amended: the effect requests exactly the page indices
whose ranges intersect the visible range widened by one page before
min(visible) and two pages after max(visible), clamped to the valid
page-index range 0 to ceil(total/PAGE_SIZE)-1. -/
theorem prefetch_coverage (fi li total p : Nat) (hfl : fi ≤ li) (hlt : li < total) :
    p ∈ prefetchRange fi li total ↔
      ((p + 2) * PAGE_SIZE > fi ∧ p * PAGE_SIZE ≤ li + 2 * PAGE_SIZE ∧
        p ≤ (total + PAGE_SIZE - 1) / PAGE_SIZE - 1) := by
  have htot : ¬total = 0 := by omega
  unfold prefetchRange
  rw [if_neg htot]
  simp only [List.mem_range'_1, PAGE_SIZE]
  omega

/-- Witness for the amended claim C5 at the counterexample input. -/
theorem prefetch_coverage_witness :
    2 ∈ prefetchRange 0 29 50000 ↔
      ((2 + 2) * PAGE_SIZE > 0 ∧ 2 * PAGE_SIZE ≤ 29 + 2 * PAGE_SIZE ∧
        2 ≤ (50000 + PAGE_SIZE - 1) / PAGE_SIZE - 1) :=
  prefetch_coverage 0 29 50000 2 (by decide) (by decide)

/-- One pass of the JS regex replace of whitespace runs by a single
underscore: the flag records whether the previous character was part
of a whitespace run already replaced. -/
def collapseWsAux : Bool → List Char → List Char
  | _, [] => []
  | prevWs, c :: cs =>
      if c.isWhitespace then
        (if prevWs then collapseWsAux true cs else '_' :: collapseWsAux true cs)
      else c :: collapseWsAux false cs

/-- Field-name normalization of the PATCH handler: lowercase each
character (as toLowerCase does) and replace whitespace runs by
underscores. -/
def jsNormalizeField (f : String) : String :=
  String.mk (collapseWsAux false (f.data.map Char.toLower))

/-- The SET clause of the PATCH handler: each client-supplied field
name is normalized and interpolated into the statement text, with the
value as positional parameter i+1. -/
def setClauseText (fields : List String) : String :=
  String.intercalate ", "
    (fields.enum.map (fun ia => jsNormalizeField ia.2 ++ " = $" ++ toString (ia.1 + 1)))

/-- The complete UPDATE statement text the PATCH handler executes; n
is the position of the id parameter (the length of the values list).
The text depends only on the field names: values and id travel as
bound parameters. -/
def patchQueryText (fields : List String) (n : Nat) : String :=
  "UPDATE creative_tasks SET " ++ setClauseText fields ++ " WHERE id = $" ++ toString n
    ++ " RETURNING *"

/-- Outcome of the UPDATE query: a thrown error, or the RETURNING
rows. -/
inductive DbPatchResult : Type
  | err
  | rows (rs : List Row)
deriving DecidableEq

/-- Response of the PATCH endpoint: 200 with the updated row, 400, 404
or 500. -/
inductive PatchResponse : Type
  | ok (r : Row)
  | badRequest
  | notFound
  | serverError
deriving DecidableEq

/-- The PATCH /api/rows/:id handler: reject an empty update set with
400, run the UPDATE built from the field names with the values and the
id as parameters, then 500 on error, 404 when no row came back,
otherwise broadcast the updated row once and respond with it. The
second component collects the rows emitted on the socket. -/
def patchRowsHandler (req : PatchReq) (db : String → List String → DbPatchResult) :
    PatchResponse × List Row :=
  if req.updates.map Prod.fst = [] then (PatchResponse.badRequest, [])
  else
    match db (patchQueryText (req.updates.map Prod.fst) (req.updates.length + 1))
        (req.updates.map Prod.snd ++ [toString req.rowId]) with
    | DbPatchResult.err => (PatchResponse.serverError, [])
    | DbPatchResult.rows [] => (PatchResponse.notFound, [])
    | DbPatchResult.rows (r :: _) => (PatchResponse.ok r, [r])

/-- Claim C8: the write endpoint emits exactly one broadcast carrying
the full updated row exactly when the write succeeds (non-empty update
set and the database returns the updated row); on an empty body, a
missing row or a database error it emits nothing and answers with an
error status. -/
theorem broadcast_exactly_once (req : PatchReq) (db : String → List String → DbPatchResult) :
    (∃ r rest, req.updates ≠ [] ∧
        db (patchQueryText (req.updates.map Prod.fst) (req.updates.length + 1))
            (req.updates.map Prod.snd ++ [toString req.rowId])
          = DbPatchResult.rows (r :: rest) ∧
        patchRowsHandler req db = (PatchResponse.ok r, [r])) ∨
    ((patchRowsHandler req db).2 = [] ∧
      ((patchRowsHandler req db).1 = PatchResponse.badRequest ∨
        (patchRowsHandler req db).1 = PatchResponse.notFound ∨
        (patchRowsHandler req db).1 = PatchResponse.serverError)) := by
  unfold patchRowsHandler
  by_cases h : req.updates.map Prod.fst = []
  · rw [if_pos h]
    exact Or.inr ⟨rfl, Or.inl rfl⟩
  · rw [if_neg h]
    have hne : req.updates ≠ [] := by
      intro hc
      exact h (by rw [hc]; rfl)
    cases hdb : db (patchQueryText (req.updates.map Prod.fst) (req.updates.length + 1))
        (req.updates.map Prod.snd ++ [toString req.rowId]) with
    | err =>
        exact Or.inr ⟨rfl, Or.inr (Or.inr rfl)⟩
    | rows rs =>
        cases rs with
        | nil => exact Or.inr ⟨rfl, Or.inr (Or.inl rfl)⟩
        | cons r rest => exact Or.inl ⟨r, rest, hne, rfl, rfl⟩

/-- JS short-circuit default: parseInt yields NaN (here none) on a
missing or non-numeric raw value, and both NaN and 0 are falsy, so
the default applies to them. -/
def jsOrInt (v : Option Int) (d : Int) : Int :=
  match v with
  | none => d
  | some n => if n = 0 then d else n

/-- Effective limit of GET /api/rows: clamp of the parsed raw limit
into 1..500 with default 150. -/
def effLimit (raw : Option Int) : Int :=
  min (max 1 (jsOrInt raw 150)) 500

/-- Effective offset of GET /api/rows: parsed raw offset clamped to be
non-negative, default 0. -/
def effOffset (raw : Option Int) : Int :=
  max 0 (jsOrInt raw 0)

/-- The GET /api/rows handler against the backing table read in
ascending identity order: the data page LIMIT effLimit OFFSET
effOffset, and the total row count. -/
def getRowsHandler (table : List Row) (rawLimit rawOffset : Option Int) : List Row × Nat :=
  ((table.drop (effOffset rawOffset).toNat).take (effLimit rawLimit).toNat, table.length)

/-- Claim C9: whatever the raw query values, the effective limit lies
in 1..500 and the effective offset is non-negative; the response holds
at most limit rows, is the slice of the identity-ordered table
starting at offset, stays in ascending identity order, and reports the
current total row count. -/
theorem read_request_bounding (table : List Row) (rawL rawO : Option Int)
    (hsorted : table.Pairwise (fun a b => a.id < b.id)) :
    1 ≤ effLimit rawL ∧ effLimit rawL ≤ 500 ∧ 0 ≤ effOffset rawO ∧
    (getRowsHandler table rawL rawO).1.length ≤ (effLimit rawL).toNat ∧
    (getRowsHandler table rawL rawO).1
        = (table.drop (effOffset rawO).toNat).take (effLimit rawL).toNat ∧
    List.Pairwise (fun a b => a.id < b.id) (getRowsHandler table rawL rawO).1 ∧
    (getRowsHandler table rawL rawO).2 = table.length := by
  have hlim : 1 ≤ effLimit rawL ∧ effLimit rawL ≤ 500 := by
    unfold effLimit
    cases rawL with
    | none =>
        show 1 ≤ min (max 1 (150 : Int)) 500 ∧ min (max 1 (150 : Int)) 500 ≤ 500
        constructor <;> decide
    | some n =>
        show 1 ≤ min (max 1 (if n = 0 then (150 : Int) else n)) 500 ∧
          min (max 1 (if n = 0 then (150 : Int) else n)) 500 ≤ 500
        by_cases hn : n = 0
        · rw [if_pos hn]
          constructor <;> decide
        · rw [if_neg hn]
          constructor
          · exact le_min (le_max_left 1 n) (by decide)
          · exact min_le_right _ _
  refine ⟨hlim.1, hlim.2, ?_, ?_, rfl, ?_, rfl⟩
  · unfold effOffset
    exact le_max_left 0 _
  · show ((table.drop (effOffset rawO).toNat).take (effLimit rawL).toNat).length ≤ _
    rw [List.length_take]
    exact min_le_left _ _
  · show List.Pairwise _ ((table.drop (effOffset rawO).toNat).take (effLimit rawL).toNat)
    exact List.Pairwise.sublist
      ((List.take_sublist _ _).trans (List.drop_sublist _ _)) hsorted

/-- Witness for claim C9 on a concrete two-row table with defaulted
query values. -/
theorem read_request_bounding_witness :
    (getRowsHandler [Row.mk 1 [], Row.mk 2 []] none none).2 = 2 :=
  (read_request_bounding [Row.mk 1 [], Row.mk 2 []] none none (by decide)).2.2.2.2.2.2

/-- Columns of the creative_tasks table from the schema. -/
def tableColumns : List String :=
  ["id", "tasks_name", "compose", "link_to_ad", "stage", "task_owner", "deadline",
   "team", "ai_services", "purchases", "platform", "product", "localization",
   "size", "concept", "status", "compose_creator", "compose_done_date",
   "attachments", "impressions", "test_status"]

/-- The statement text a fixed-template parameterized single-field
update would execute for a given column. -/
def fixedTemplateUpdate (col : String) : String :=
  "UPDATE creative_tasks SET " ++ col ++ " = $1 WHERE id = $2 RETURNING *"

/-- A client-supplied field name carrying SQL operators; lowercasing and
whitespace replacement leave it unchanged. -/
def injectionField : String := "status=(select(1))--"

/-- Claim C10: the write endpoint interpolates each normalized field
name into the SET clause text while only values and the id are bound
parameters; for a body whose field name carries SQL operators the
generated statement embeds that text verbatim and differs from every
fixed-template parameterized update over the table columns, while a
benign field name reproduces the fixed template. -/
theorem sql_setclause_interpolation :
    patchQueryText [injectionField] 2
        = "UPDATE creative_tasks SET status=(select(1))-- = $1 WHERE id = $2 RETURNING *" ∧
    (∀ col ∈ tableColumns, patchQueryText [injectionField] 2 ≠ fixedTemplateUpdate col) ∧
    patchQueryText ["status"] 2 = fixedTemplateUpdate "status" := by
  refine ⟨by decide, by decide, by decide⟩

/-- Witness for claim C10 at the status column. -/
theorem sql_setclause_interpolation_witness :
    patchQueryText [injectionField] 2 ≠ fixedTemplateUpdate "status" :=
  sql_setclause_interpolation.2.1 "status" (by decide)

end Minitable
